import Mathlib

/-!
Verification of `miniBMA/lib/common/log/LogUtils.py`.

File contents are modelled as `List Nat` (byte values, newline = 10).
`tail`, `backup_and_truncate_file` and `get_seconds_until_next_target_time`
are embedded as pure Lean functions; the filesystem is an explicit record of
the live file and its `.1` backup, and Python exceptions become an error type.
-/

/-- The bytes a single `f.readline()` call consumes when the handle stands at
the start of `bs`: everything up to and including the first newline (byte 10),
or all of `bs` when it holds no newline. -/
def takeLine : List Nat → List Nat
  | [] => []
  | b :: rest => if b = 10 then [10] else b :: takeLine rest

/-- The bytes left after one `f.readline()` call: the suffix just past the
first newline, or `[]` when `bs` holds no newline. -/
def dropLine : List Nat → List Nat
  | [] => []
  | b :: rest => if b = 10 then rest else dropLine rest

/-- Fuel-indexed worker for `linesOf`; each step peels one `readline` off the
front, and `bs.length` fuel always suffices because a step consumes at least
one byte. -/
def linesOfAux : Nat → List Nat → List (List Nat)
  | 0, _ => []
  | _ + 1, [] => []
  | fuel + 1, b :: rest => takeLine (b :: rest) :: linesOfAux fuel (dropLine (b :: rest))

/-- The chunks `yield from f` produces from a handle standing at the start of
`bs`: the lines of `bs`, each with its trailing newline, the last possibly
without one. -/
def linesOf (bs : List Nat) : List (List Nat) := linesOfAux bs.length bs

/-- `tail(file_path, size)` from LogUtils.py, as the list of yielded chunks
for a file whose bytes are `content`.  If the file fits in `size` the whole
file is yielded; otherwise the code seeks to `file_size - size - 1`, checks
that byte and the next for a newline, and else skips the rest of the cut
line with `readline()` before yielding the remainder. -/
def tailPy (content : List Nat) (size : Nat) : List (List Nat) :=
  if content.length ≤ size then linesOf content
  else
    if content[content.length - size - 1]? = some 10 then
      linesOf (content.drop (content.length - size))
    else if content[content.length - size]? = some 10 then
      linesOf (content.drop (content.length - size + 1))
    else
      linesOf (dropLine (content.drop (content.length - size + 1)))

/-- The byte index at which the tail's output starts, stated directly from
the spec's §4.2 boundary rule: offset 0 when the file fits, otherwise check
the byte at `file_size - size - 1`, then the byte at `file_size - size`, and
else skip through the next newline. -/
def cutIndex (content : List Nat) (size : Nat) : Nat :=
  if content.length ≤ size then 0
  else
    if content[content.length - size - 1]? = some 10 then content.length - size
    else if content[content.length - size]? = some 10 then content.length - size + 1
    else content.length - size + 1 +
      (takeLine (content.drop (content.length - size + 1))).length

/-- Bytes of the test content `"a\nb\nc\n"`. -/
def abcBytes : List Nat := [97, 10, 98, 10, 99, 10]

/-- The error kinds the module can raise: `FileNotFoundError`, `TypeError`,
`ValueError` for a bad time string, and other I/O failures such as writing
through a read-only permission. -/
inductive LogErr where
  | notFound
  | typeErr
  | formatErr
  | ioErr
deriving DecidableEq, Repr

/-- `tail` including its existence check: `Option.none` models a path with no
file behind it, on which the code raises `FileNotFoundError`. -/
def tail_run (file : Option (List Nat)) (size : Nat) : Except LogErr (List (List Nat)) :=
  match file with
  | Option.none => Except.error LogErr.notFound
  | some content => Except.ok (tailPy content size)

/-- The slice of the filesystem `backup_and_truncate_file` touches: the live
file at `file_path` and the backup at `file_path + ".1"`, the backup carried
with its POSIX permission bits.  `Option.none` means the path has no file. -/
structure FsState where
  live : Option (List Nat)
  backup : Option (List Nat × Nat)
deriving DecidableEq, Repr

/-- `shutil.copyfile(src, dst)`: opening `dst` for writing fails with a
permission error when `dst` exists without the owner-write bit; a fresh `dst`
is created with the process default mode `createMode`, an existing one keeps
its mode.  Only contents are copied, never permissions. -/
def copyfile (src : List Nat) (dst : Option (List Nat × Nat)) (createMode : Nat) :
    Except LogErr (List Nat × Nat) :=
  match dst with
  | Option.none => Except.ok (src, createMode)
  | some (_, m) =>
    if Nat.land m 0o200 = 0 then Except.error LogErr.ioErr else Except.ok (src, m)

/-- `backup_and_truncate_file(file_path, max_size)` as a filesystem-state
transformer returning the final state and the raised error, if any.  It checks
existence, copies the live file to the backup, truncates the live file, and
either locks the backup read-only directly (small backup) or first rewrites it
with the flattened output of `tail(backup, max_size)` via a temporary file. -/
def backup_and_truncate_run (fs : FsState) (maxSize createMode : Nat) :
    FsState × Option LogErr :=
  match fs.live with
  | Option.none => (fs, some LogErr.notFound)
  | some content =>
    match copyfile content fs.backup createMode with
    | Except.error e => (fs, some e)
    | Except.ok b1 =>
      let fs2 : FsState := { live := some [], backup := some b1 }
      if content.length ≤ maxSize then
        ({ fs2 with backup := some (b1.1, 0o400) }, Option.none)
      else
        match copyfile (tailPy content maxSize).flatten fs2.backup createMode with
        | Except.error e => (fs2, some e)
        | Except.ok b2 => ({ fs2 with backup := some (b2.1, 0o400) }, Option.none)

/-- A later attempt to open the backup for writing, as in `open(path, "wb")`:
it fails when the backup exists but its owner-write bit is off. -/
def writeBackup (fs : FsState) (data : List Nat) (createMode : Nat) :
    Except LogErr FsState :=
  match fs.backup with
  | Option.none => Except.ok { fs with backup := some (data, createMode) }
  | some (_, m) =>
    if Nat.land m 0o200 = 0 then Except.error LogErr.ioErr
    else Except.ok { fs with backup := some (data, m) }

/-- The backup content `backup_and_truncate_file` is specified to leave
behind: the whole original when it fits in `max_size`, else the flattened
chunks of `tail`. -/
def expectedBackup (content : List Nat) (maxSize : Nat) : List Nat :=
  if content.length ≤ maxSize then content else (tailPy content maxSize).flatten

/-- Microseconds per second: `datetime` values carry microsecond precision,
so moments within a day are modelled as microsecond counts. -/
def MICRO : Nat := 1000000

/-- Microseconds per day. -/
def DAY_US : Nat := 86400 * MICRO

/-- The arithmetic core of `get_seconds_until_next_target_time` once a target
time-of-day is in hand: `target_datetime.replace(year, month, day)` reduces
both moments to times-of-day (in microseconds), the candidate is pushed one
day ahead when it is `<=` now, and `int(delta.total_seconds())` floors the
positive difference to whole seconds. -/
def secondsUntilNext (targetUs nowUs : Nat) : Nat :=
  (if targetUs ≤ nowUs then targetUs + DAY_US - nowUs else targetUs - nowUs) / MICRO

/-- The numeric value of an ASCII digit character, else `Option.none`. -/
def digitVal (c : Char) : Option Nat :=
  if 48 ≤ c.toNat ∧ c.toNat ≤ 57 then some (c.toNat - 48) else Option.none

/-- One `%H`/`%M`/`%S` field as `strptime` reads it: one or two digit
characters, nothing else. -/
def fieldVal : List Char → Option Nat
  | [c] => digitVal c
  | [c1, c2] =>
    match digitVal c1, digitVal c2 with
    | some d1, some d2 => some (d1 * 10 + d2)
    | _, _ => Option.none
  | _ => Option.none

/-- Split a character list into the fields between `:` separators. -/
def splitColonAux (acc : List Char) : List Char → List (List Char)
  | [] => [acc.reverse]
  | c :: rest =>
    if c = ':' then acc.reverse :: splitColonAux [] rest
    else splitColonAux (c :: acc) rest

/-- `datetime.strptime(s, "%H:%M:%S")`, reduced to its observable outcome:
`some` microseconds-of-day for an accepted string (hour 0-23, minute and
second 0-59, each field 1-2 ASCII digits, exactly two `:` separators, no
surrounding text), `Option.none` for any string it rejects with
`ValueError`. -/
def parseHMS (s : String) : Option Nat :=
  match splitColonAux [] s.toList with
  | [f1, f2, f3] =>
    match fieldVal f1, fieldVal f2, fieldVal f3 with
    | some h, some m, some sec =>
      if h ≤ 23 ∧ m ≤ 59 ∧ sec ≤ 59 then some (((h * 60 + m) * 60 + sec) * MICRO)
      else Option.none
    | _, _, _ => Option.none
  | _ => Option.none

/-- The runtime type of the `target_time` argument: a string, a `datetime`
(whose time-of-day is `us` microseconds past midnight), or an unsupported
value such as `None` or an `int`. -/
inductive TimeInput where
  | str (s : String)
  | dt (us : Nat)
  | pyNone
  | pyInt (n : Int)
deriving Repr

/-- `get_seconds_until_next_target_time(target_time)` with the current moment
`nowUs` (microseconds past midnight) made explicit: non-string non-datetime
inputs raise `TypeError`, unparsable strings raise `ValueError`, and valid
inputs return the whole-second delay until the target's next occurrence. -/
def get_seconds_until_next_target_time (target : TimeInput) (nowUs : Nat) :
    Except LogErr Nat :=
  match target with
  | TimeInput.pyNone => Except.error LogErr.typeErr
  | TimeInput.pyInt _ => Except.error LogErr.typeErr
  | TimeInput.str s =>
    match parseHMS s with
    | Option.none => Except.error LogErr.formatErr
    | some us => Except.ok (secondsUntilNext us nowUs)
  | TimeInput.dt us => Except.ok (secondsUntilNext us nowUs)

theorem takeLine_append_dropLine (bs : List Nat) : takeLine bs ++ dropLine bs = bs := by
  induction bs with
  | nil => rfl
  | cons b rest ih =>
    by_cases hb : b = 10
    · simp [takeLine, dropLine, hb]
    · simp [takeLine, dropLine, hb, ih]

theorem dropLine_length_le (bs : List Nat) : (dropLine bs).length ≤ bs.length := by
  induction bs with
  | nil => simp [dropLine]
  | cons b rest ih =>
    simp only [dropLine]
    split
    · simp
    · exact Nat.le_trans ih (Nat.le_succ _)

theorem dropLine_cons_lt (b : Nat) (rest : List Nat) :
    (dropLine (b :: rest)).length < (b :: rest).length := by
  simp only [dropLine]
  split
  · simp
  · exact Nat.lt_succ_of_le (dropLine_length_le rest)

theorem linesOfAux_flatten (fuel : Nat) :
    ∀ bs : List Nat, bs.length ≤ fuel → (linesOfAux fuel bs).flatten = bs := by
  induction fuel with
  | zero =>
    intro bs h
    have hb : bs = [] := List.eq_nil_of_length_eq_zero (Nat.le_zero.mp h)
    subst hb
    rfl
  | succ n ih =>
    intro bs h
    cases bs with
    | nil => rfl
    | cons b rest =>
      have hfl : (linesOfAux (n + 1) (b :: rest)) =
          takeLine (b :: rest) :: linesOfAux n (dropLine (b :: rest)) := rfl
      rw [hfl, List.flatten_cons]
      rw [ih (dropLine (b :: rest)) (by have hlt := dropLine_cons_lt b rest; omega)]
      exact takeLine_append_dropLine _

theorem linesOf_flatten (bs : List Nat) : (linesOf bs).flatten = bs :=
  linesOfAux_flatten bs.length bs Nat.le.refl

theorem dropLine_eq_drop (bs : List Nat) : dropLine bs = bs.drop (takeLine bs).length := by
  calc dropLine bs
      = (takeLine bs ++ dropLine bs).drop (takeLine bs).length := (List.drop_left _ _).symm
    _ = bs.drop (takeLine bs).length := by rw [takeLine_append_dropLine]

theorem takeLine_ne_nil (b : Nat) (rest : List Nat) : takeLine (b :: rest) ≠ [] := by
  simp only [takeLine]
  split <;> simp

theorem getElem?_takeLine_newline (bs : List Nat) (h : dropLine bs ≠ []) :
    bs[(takeLine bs).length - 1]? = some 10 := by
  induction bs with
  | nil => simp [dropLine] at h
  | cons b rest ih =>
    by_cases hb : b = 10
    · subst hb
      simp [takeLine]
    · have h' : dropLine rest ≠ [] := by
        simpa [dropLine, hb] using h
      have hrest : rest ≠ [] := by
        intro hr
        rw [hr] at h'
        exact h' rfl
      obtain ⟨c, cs, hcc⟩ := List.exists_cons_of_ne_nil hrest
      have hlen : 1 ≤ (takeLine rest).length := by
        rw [hcc]
        exact List.length_pos.mpr (takeLine_ne_nil c cs)
      have htl : takeLine (b :: rest) = b :: takeLine rest := by
        simp [takeLine, hb]
      rw [htl]
      have hidx : (b :: takeLine rest).length - 1 = ((takeLine rest).length - 1) + 1 := by
        simp only [List.length_cons]
        omega
      rw [hidx, List.getElem?_cons_succ]
      exact ih h'

theorem tail_flatten_eq_drop (content : List Nat) (size : Nat) :
    (tailPy content size).flatten = content.drop (cutIndex content size) := by
  unfold tailPy cutIndex
  split
  · rw [linesOf_flatten, List.drop_zero]
  · split
    · rw [linesOf_flatten]
    · split
      · rw [linesOf_flatten]
      · rw [linesOf_flatten, dropLine_eq_drop, List.drop_drop]

theorem cutIndex_lower (content : List Nat) (size : Nat) :
    content.length - cutIndex content size ≤ size := by
  unfold cutIndex
  split
  · omega
  · split
    · omega
    · split
      · omega
      · omega

theorem backup_and_truncate_run_ok (fs fs' : FsState) (content : List Nat)
    (maxSize createMode : Nat) (hl : fs.live = some content)
    (hok : backup_and_truncate_run fs maxSize createMode = (fs', Option.none)) :
    fs' = { live := some [], backup := some (expectedBackup content maxSize, 0o400) } := by
  unfold backup_and_truncate_run at hok
  rw [hl] at hok
  simp only at hok
  cases hcb : copyfile content fs.backup createMode with
  | error e => rw [hcb] at hok; simp at hok
  | ok b1 =>
    rw [hcb] at hok
    simp only at hok
    by_cases hsz : content.length ≤ maxSize
    · rw [if_pos hsz] at hok
      have hb1 : b1.1 = content := by
        unfold copyfile at hcb
        cases hd : fs.backup with
        | none => rw [hd] at hcb; simp at hcb; rw [← hcb]
        | some p =>
          rw [hd] at hcb
          obtain ⟨c, m⟩ := p
          simp only at hcb
          by_cases hm : Nat.land m 0o200 = 0
          · rw [if_pos hm] at hcb; simp at hcb
          · rw [if_neg hm] at hcb; simp at hcb; rw [← hcb]
      have := (Prod.mk.injEq _ _ _ _).mp hok
      rw [← this.1, expectedBackup, if_pos hsz, ← hb1]
    · rw [if_neg hsz] at hok
      cases hcb2 : copyfile (tailPy content maxSize).flatten
          (some (b1.1, b1.2)) createMode with
      | error e =>
        rw [show (some (b1.1, b1.2)) = some b1 from rfl] at hcb2
        rw [hcb2] at hok
        simp at hok
      | ok b2 =>
        rw [show (some (b1.1, b1.2)) = some b1 from rfl] at hcb2
        rw [hcb2] at hok
        simp only at hok
        have hb2 : b2.1 = (tailPy content maxSize).flatten := by
          unfold copyfile at hcb2
          simp only at hcb2
          by_cases hm : Nat.land b1.2 0o200 = 0
          · rw [if_pos hm] at hcb2; simp at hcb2
          · rw [if_neg hm] at hcb2; simp at hcb2; rw [← hcb2]
        have := (Prod.mk.injEq _ _ _ _).mp hok
        rw [← this.1, expectedBackup, if_neg hsz, ← hb2]

theorem parseHMS_bounds (s : String) (t : Nat) (h : parseHMS s = some t) :
    t < DAY_US ∧ t % MICRO = 0 := by
  unfold parseHMS at h
  split at h
  · split at h
    · split at h
      · rename_i hrange
        have ht := Option.some.inj h
        obtain ⟨h1, h2, h3⟩ := hrange
        constructor
        · rw [← ht]
          simp only [DAY_US, MICRO]
          omega
        · rw [← ht]
          exact Nat.mul_mod_left _ _
      · exact absurd h (by simp)
    · exact absurd h (by simp)
  · exact absurd h (by simp)

theorem secondsUntilNext_le (t n : Nat) (ht : t < DAY_US) (hn : n < DAY_US) :
    secondsUntilNext t n ≤ 86400 := by
  unfold secondsUntilNext
  have h1 : (if t ≤ n then t + DAY_US - n else t - n) ≤ DAY_US := by
    split <;> omega
  calc (if t ≤ n then t + DAY_US - n else t - n) / MICRO
      ≤ DAY_US / MICRO := Nat.div_le_div_right h1
    _ = 86400 := by decide

theorem secondsUntilNext_pos (t n : Nat) (ht : t < DAY_US) (hn : n < DAY_US)
    (htm : t % MICRO = 0) (hnm : n % MICRO = 0) : 0 < secondsUntilNext t n := by
  unfold secondsUntilNext
  refine Nat.div_pos ?_ (by decide)
  simp only [MICRO, DAY_US] at htm hnm ht hn ⊢
  split <;> omega

/-- Claim C2: concatenating all chunks of `tail(path, size)` yields the suffix
of the file starting exactly at the §4.2 boundary-rule index, and when any
chunk is produced that suffix starts at byte 0 or immediately after a newline
byte (the remaining disjunct covers an empty output, where no chunk exists to
start anywhere). -/
theorem tail_chunks_line_aligned_suffix (content : List Nat) (size : Nat) :
    (tailPy content size).flatten = content.drop (cutIndex content size) ∧
    (cutIndex content size = 0 ∨
      content[cutIndex content size - 1]? = some 10 ∨
      content.drop (cutIndex content size) = []) := by
  refine ⟨tail_flatten_eq_drop content size, ?_⟩
  unfold cutIndex
  split
  · exact Or.inl rfl
  · split
    · rename_i h1
      exact Or.inr (Or.inl h1)
    · split
      · rename_i h1 h2
        refine Or.inr (Or.inl ?_)
        have he : content.length - size + 1 - 1 = content.length - size := by omega
        rw [he]
        exact h2
      · by_cases hdl : dropLine (content.drop (content.length - size + 1)) = []
        · refine Or.inr (Or.inr ?_)
          rw [← List.drop_drop, ← dropLine_eq_drop]
          exact hdl
        · refine Or.inr (Or.inl ?_)
          have hrest : content.drop (content.length - size + 1) ≠ [] := by
            intro hr
            rw [hr] at hdl
            exact hdl rfl
          obtain ⟨c, cs, hcc⟩ := List.exists_cons_of_ne_nil hrest
          have hn : 1 ≤ (takeLine (content.drop (content.length - size + 1))).length := by
            rw [hcc]
            exact List.length_pos.mpr (takeLine_ne_nil c cs)
          have hidx : content.length - size + 1 +
              (takeLine (content.drop (content.length - size + 1))).length - 1 =
              (content.length - size + 1) +
              ((takeLine (content.drop (content.length - size + 1))).length - 1) := by
            omega
          rw [hidx, ← List.getElem?_drop]
          exact getElem?_takeLine_newline _ hdl

/-- Claim C3: on the file `"a\nb\nc\n"`, `tail` yields exactly the chunks the
test suite expects for sizes 100, 6 and 5, and nothing on an empty file with
size 0. -/
theorem tail_concrete_cases :
    tailPy abcBytes 100 = [[97, 10], [98, 10], [99, 10]] ∧
    tailPy abcBytes 6 = [[97, 10], [98, 10], [99, 10]] ∧
    tailPy abcBytes 5 = [[98, 10], [99, 10]] ∧
    tailPy [] 0 = [] := by
  decide

/-- Claim C10: the total number of bytes in the chunks of `tail(path, size)`
never exceeds `size`: boundary handling only ever discards bytes from the
front of the file. -/
theorem tail_total_le_size (content : List Nat) (size : Nat) :
    ((tailPy content size).flatten).length ≤ size := by
  rw [tail_flatten_eq_drop, List.length_drop]
  exact cutIndex_lower content size

/-- Claim C9, counterexample: the negation of the claimed existence — there
is no file content and size for which the concatenated output of `tail` is
strictly longer than `size` bytes. -/
theorem tail_output_never_exceeds_size :
    ¬ ∃ (content : List Nat) (size : Nat),
      size < ((tailPy content size).flatten).length := by
  rintro ⟨content, size, h⟩
  rw [tail_flatten_eq_drop, List.length_drop] at h
  exact Nat.lt_irrefl size (Nat.lt_of_lt_of_le h (cutIndex_lower content size))

/-- Claim C9, amended: the concatenated output of `tail(path, size)` is never
longer than `size` bytes, nor longer than the file itself; the excess the
claim allowed for never occurs. -/
theorem tail_output_at_most_size_and_file (content : List Nat) (size : Nat) :
    ((tailPy content size).flatten).length ≤ min size content.length := by
  rw [tail_flatten_eq_drop, List.length_drop]
  exact le_min (cutIndex_lower content size) (Nat.sub_le _ _)

/-- Claim C1: every successful `backup_and_truncate_file(path, max_size)` on
an existing file empties the live file and leaves the backup holding the full
original content when it fits in `max_size`, else the line-boundary-trimmed
tail; in particular the four test cases on `"a\nb\nc\n"` and the empty file
come out as the spec lists them. -/
theorem backup_and_truncate_correct (fs fs' : FsState) (content : List Nat)
    (maxSize createMode : Nat) (hl : fs.live = some content)
    (hok : backup_and_truncate_run fs maxSize createMode = (fs', Option.none)) :
    (fs'.live = some [] ∧
      fs'.backup = some (expectedBackup content maxSize, 0o400)) ∧
    backup_and_truncate_run ⟨some abcBytes, Option.none⟩ 100 0o644 =
      (⟨some [], some (abcBytes, 0o400)⟩, Option.none) ∧
    backup_and_truncate_run ⟨some abcBytes, Option.none⟩ 6 0o644 =
      (⟨some [], some (abcBytes, 0o400)⟩, Option.none) ∧
    backup_and_truncate_run ⟨some abcBytes, Option.none⟩ 5 0o644 =
      (⟨some [], some ([98, 10, 99, 10], 0o400)⟩, Option.none) ∧
    backup_and_truncate_run ⟨some [], Option.none⟩ 0 0o644 =
      (⟨some [], some ([], 0o400)⟩, Option.none) := by
  refine ⟨?_, by decide, by decide, by decide, by decide⟩
  have h := backup_and_truncate_run_ok fs fs' content maxSize createMode hl hok
  rw [h]
  exact ⟨rfl, rfl⟩

/-- Witness for C1 at the concrete rotation of `"a\nb\nc\n"` with
`max_size = 5`. -/
theorem backup_and_truncate_correct_witness :
    (⟨some [], some ([98, 10, 99, 10], 0o400)⟩ : FsState).live = some [] ∧
    (⟨some [], some ([98, 10, 99, 10], 0o400)⟩ : FsState).backup =
      some (expectedBackup abcBytes 5, 0o400) :=
  (backup_and_truncate_correct ⟨some abcBytes, Option.none⟩
    ⟨some [], some ([98, 10, 99, 10], 0o400)⟩ abcBytes 5 0o644 rfl (by decide)).1

/-- Claim C5: after every successful `backup_and_truncate_file` call, in
either branch, the backup's permission bits are exactly `0400`, and a later
attempt to open the backup for writing fails. -/
theorem backup_readonly_after_success (fs fs' : FsState) (maxSize createMode : Nat)
    (hok : backup_and_truncate_run fs maxSize createMode = (fs', Option.none)) :
    (∃ c, fs'.backup = some (c, 0o400)) ∧
    ∀ data cm, writeBackup fs' data cm = Except.error LogErr.ioErr := by
  cases hlv : fs.live with
  | none =>
    unfold backup_and_truncate_run at hok
    rw [hlv] at hok
    simp at hok
  | some content =>
    have h := backup_and_truncate_run_ok fs fs' content maxSize createMode hlv hok
    refine ⟨⟨expectedBackup content maxSize, by rw [h]⟩, ?_⟩
    intro data cm
    rw [h]
    unfold writeBackup
    simp only
    rw [if_pos (by decide)]

/-- Witness for C5 at the concrete rotation of `"a\nb\nc\n"` with
`max_size = 5`. -/
theorem backup_readonly_after_success_witness :
    (∃ c, (⟨some [], some (([98, 10, 99, 10] : List Nat), 0o400)⟩ : FsState).backup =
      some (c, 0o400)) ∧
    ∀ data cm, writeBackup ⟨some [], some ([98, 10, 99, 10], 0o400)⟩ data cm =
      Except.error LogErr.ioErr :=
  backup_readonly_after_success ⟨some abcBytes, Option.none⟩
    ⟨some [], some ([98, 10, 99, 10], 0o400)⟩ 5 0o644 (by decide)

/-- Claim C6: on a path with no file behind it, `tail` raises the not-found
error, and `backup_and_truncate_file` raises it before writing anything, so
the filesystem state is returned unchanged. -/
theorem missing_path_raises_not_found (fs : FsState) (size maxSize createMode : Nat)
    (hl : fs.live = Option.none) :
    tail_run Option.none size = Except.error LogErr.notFound ∧
    backup_and_truncate_run fs maxSize createMode = (fs, some LogErr.notFound) := by
  refine ⟨rfl, ?_⟩
  unfold backup_and_truncate_run
  rw [hl]

/-- Witness for C6 on an empty filesystem slice. -/
theorem missing_path_raises_not_found_witness :
    tail_run Option.none 100 = Except.error LogErr.notFound ∧
    backup_and_truncate_run ⟨Option.none, Option.none⟩ 100 0o644 =
      (⟨Option.none, Option.none⟩, some LogErr.notFound) :=
  missing_path_raises_not_found ⟨Option.none, Option.none⟩ 100 100 0o644 rfl

/-- Claim C4: for a valid target time-of-day `t` and current moment `n` (both
in microseconds past midnight): a target equal to now yields exactly 86400,
a target exactly `d` whole seconds ahead yields `d`, and a target exactly `d`
whole seconds behind yields `86400 - d`; both the string route and the
datetime route of `get_seconds_until_next_target_time` return this value. -/
theorem seconds_until_next_values (t n : Nat) (ht : t < DAY_US) (hn : n < DAY_US) :
    (t = n → secondsUntilNext t n = 86400) ∧
    (∀ d, 0 < d → t = n + d * MICRO → secondsUntilNext t n = d) ∧
    (∀ d, 0 < d → n = t + d * MICRO → secondsUntilNext t n = 86400 - d) ∧
    (∀ s, parseHMS s = some t →
      get_seconds_until_next_target_time (TimeInput.str s) n =
        Except.ok (secondsUntilNext t n)) ∧
    get_seconds_until_next_target_time (TimeInput.dt t) n =
      Except.ok (secondsUntilNext t n) := by
  refine ⟨?_, ?_, ?_, ?_, rfl⟩
  · intro he
    subst he
    unfold secondsUntilNext
    rw [if_pos (Nat.le_refl t), Nat.add_sub_cancel_left]
    decide
  · intro d hd he
    have hgt : ¬ t ≤ n := by
      simp only [MICRO] at he
      omega
    unfold secondsUntilNext
    rw [if_neg hgt, he, Nat.add_sub_cancel_left]
    exact Nat.mul_div_cancel d (by decide)
  · intro d hd he
    have hle : t ≤ n := by
      simp only [MICRO] at he
      omega
    have hdle : d ≤ 86400 := by
      simp only [MICRO, DAY_US] at he hn
      omega
    unfold secondsUntilNext
    rw [if_pos hle, he,
      show t + DAY_US - (t + d * MICRO) = DAY_US - d * MICRO from by omega,
      show DAY_US - d * MICRO = (86400 - d) * MICRO from by
        simp only [DAY_US]; rw [Nat.sub_mul]]
    exact Nat.mul_div_cancel (86400 - d) (by decide)
  · intro s hp
    simp [get_seconds_until_next_target_time, hp]

/-- Witness for C4 at midnight target and midnight current time. -/
theorem seconds_until_next_values_witness :
    secondsUntilNext 0 0 = 86400 ∧
    get_seconds_until_next_target_time (TimeInput.str "00:00:00") 0 =
      Except.ok (secondsUntilNext 0 0) :=
  ⟨(seconds_until_next_values 0 0 (by decide) (by decide)).1 rfl,
    (seconds_until_next_values 0 0 (by decide) (by decide)).2.2.2.1 "00:00:00" (by decide)⟩

/-- Claim C7: inputs that are neither a string nor a datetime (such as `None`
or an integer) always raise the type error and never the format error, while
every string the `HH:MM:SS` parse rejects — including out-of-range hours such
as 24 or 25 — raises the format error. -/
theorem seconds_until_next_error_kinds :
    (∀ n nowUs, get_seconds_until_next_target_time (TimeInput.pyInt n) nowUs =
      Except.error LogErr.typeErr) ∧
    (∀ nowUs, get_seconds_until_next_target_time TimeInput.pyNone nowUs =
      Except.error LogErr.typeErr) ∧
    (∀ s nowUs, parseHMS s = Option.none →
      get_seconds_until_next_target_time (TimeInput.str s) nowUs =
        Except.error LogErr.formatErr) ∧
    parseHMS "24:00:00" = Option.none ∧
    parseHMS "25:00:00" = Option.none := by
  refine ⟨fun n nowUs => rfl, fun nowUs => rfl, ?_, by decide, by decide⟩
  intro s nowUs hp
  simp [get_seconds_until_next_target_time, hp]

/-- Witness for C7 on the hour-24 string and on `None`. -/
theorem seconds_until_next_error_kinds_witness :
    get_seconds_until_next_target_time (TimeInput.str "24:00:00") 0 =
      Except.error LogErr.formatErr ∧
    get_seconds_until_next_target_time TimeInput.pyNone 0 =
      Except.error LogErr.typeErr :=
  ⟨seconds_until_next_error_kinds.2.2.1 "24:00:00" 0 (by decide),
    seconds_until_next_error_kinds.2.1 0⟩

/-- Claim C8, counterexample: with the valid string `"00:00:01"` and the
current moment half a second past midnight (microseconds are part of
`datetime.today()`), the function returns 0, not a value in (0, 86400]. -/
theorem seconds_until_next_can_return_zero :
    parseHMS "00:00:01" = some 1000000 ∧
    500000 < DAY_US ∧
    get_seconds_until_next_target_time (TimeInput.str "00:00:01") 500000 =
      Except.ok 0 := by
  refine ⟨by decide, by decide, ?_⟩
  rfl

/-- Claim C8, amended: for every valid input the result is at most 86400 and
at least 0; it is strictly positive whenever the current moment lies on a
whole second (always true for the string route, whose target has no
sub-second part; for the datetime route the target must also lie on a whole
second). -/
theorem seconds_until_next_range (n : Nat) (hn : n < DAY_US) :
    (∀ s t, parseHMS s = some t →
      get_seconds_until_next_target_time (TimeInput.str s) n =
        Except.ok (secondsUntilNext t n) ∧
      secondsUntilNext t n ≤ 86400 ∧
      (n % MICRO = 0 → 0 < secondsUntilNext t n)) ∧
    (∀ t, t < DAY_US →
      get_seconds_until_next_target_time (TimeInput.dt t) n =
        Except.ok (secondsUntilNext t n) ∧
      secondsUntilNext t n ≤ 86400 ∧
      (n % MICRO = 0 → t % MICRO = 0 → 0 < secondsUntilNext t n)) := by
  constructor
  · intro s t hp
    obtain ⟨htlt, htm⟩ := parseHMS_bounds s t hp
    refine ⟨by simp [get_seconds_until_next_target_time, hp],
      secondsUntilNext_le t n htlt hn, ?_⟩
    intro hnm
    exact secondsUntilNext_pos t n htlt hn htm hnm
  · intro t htlt
    exact ⟨rfl, secondsUntilNext_le t n htlt hn,
      fun hnm htm => secondsUntilNext_pos t n htlt hn htm hnm⟩

/-- Witness for the amended C8 at target `"00:00:00"` and a midnight current
moment. -/
theorem seconds_until_next_range_witness :
    get_seconds_until_next_target_time (TimeInput.str "00:00:00") 0 =
      Except.ok (secondsUntilNext 0 0) ∧
    secondsUntilNext 0 0 ≤ 86400 ∧ 0 < secondsUntilNext 0 0 := by
  obtain ⟨h1, h2, h3⟩ := (seconds_until_next_range 0 (by decide)).1 "00:00:00" 0 (by decide)
  exact ⟨h1, h2, h3 rfl⟩
